import Mathlib

/-!
Verification development for the single-header lazy-evaluated vector library
(`LazyVector.h`).  The growable container `Lazy::Vector<T>` (manual buffer
with `m_reservedSize` / `m_size` / `m_data`) and the deferred
`Lazy::BinaryExpression` nodes are shallowly embedded below; each definition's
doc comment cites the source lines it models.  The raw allocation obtained by
`new T[n]` default-initializes its slots, which for arithmetic `T` leaves them
indeterminate; this is modelled by an explicit `junk` value, and theorems that
could depend on such slots quantify over every `junk`.
-/

namespace Lazy

variable {T : Type}

/-- The state of one `Lazy::Vector<T>` object (LazyVector.h:158-166):
`m_reservedSize` (reserved slot count, NSDMI 4), `m_size` (logical element
count, NSDMI 0), and the owned buffer `m_data`, modelled as the list of all
allocated slots (so `data.length` is the allocation size; a null `m_data` is
modelled as `[]`). -/
structure Vector (T : Type) where
  reservedSize : Nat
  size : Nat
  data : List T

/-- Models `reallocate()` (LazyVector.h:172-177): allocate a fresh buffer of
`m_reservedSize` slots (`new T[]` slots indeterminate, modelled by `junk`),
`memcpy` the first `m_size` elements of the old buffer into it, free the old
buffer.  The source always updates `m_reservedSize` before calling it. -/
def Vector.reallocate (junk : T) (v : Vector T) : Vector T :=
  { v with data := v.data.take v.size ++ List.replicate (v.reservedSize - v.size) junk }

/-- Models the empty constructor `Vector()` (LazyVector.h:191-193): the NSDMIs
give `m_reservedSize = 4` and `m_size = 0`; `m_data = new T[4]`. -/
def Vector.mkEmpty (junk : T) : Vector T :=
  { reservedSize := 4, size := 0, data := List.replicate 4 junk }

/-- Models `Vector(xi_size)` (LazyVector.h:196-206): `m_reservedSize = 2 * n`,
`m_size = n`, `m_data = new T[2 * n]` (all slots `junk`), then the loop
`m_data[i] = T{}` for `i < n`; `tzero` stands for the value-initialized `T{}`
(`0` for arithmetic element types). -/
def Vector.mkSize (junk tzero : T) (n : Nat) : Vector T :=
  { reservedSize := 2 * n, size := n,
    data := List.replicate n tzero ++ List.replicate n junk }

/-- Models a C++ fill loop `for (auto& item : list) m_data[pos++] = item;`:
writes the items of `l` into the buffer `d` at consecutive indices starting at
`pos` (writes beyond the buffer are dropped, as `List.set` is then a no-op). -/
def fillFrom (d : List T) (pos : Nat) : List T → List T
  | [] => d
  | x :: xs => fillFrom (d.set pos x) (pos + 1) xs

/-- Models `Vector(std::initializer_list<T>)` (LazyVector.h:237-247):
`m_reservedSize = 2 * len`, `m_size = len`, `m_data = new T[2 * len]` (junk),
then the fill loop `m_data[m_size++] = item` — it starts writing at index
`m_size = len` without resetting `m_size` to 0 (contrast
`operator=(std::initializer_list)` at line 340, which does reset it), so the
items land in slots `len .. 2*len-1` and `m_size` ends at `2 * len`. -/
def Vector.ofInitList (junk : T) (l : List T) : Vector T :=
  { reservedSize := 2 * l.length, size := l.length + l.length,
    data := fillFrom (List.replicate (2 * l.length) junk) l.length l }

/-- Models `operator=(std::initializer_list<T>)` (LazyVector.h:332-344): grow
to `2 * len` and reallocate if the list does not fit, then `m_size = 0` and the
fill loop `m_data[m_size++] = item`, ending with `m_size = len`. -/
def Vector.assignList (junk : T) (v : Vector T) (l : List T) : Vector T :=
  let v1 := if v.reservedSize < l.length then
      Vector.reallocate junk { v with reservedSize := 2 * l.length }
    else v
  { v1 with size := l.length, data := fillFrom v1.data 0 l }

/-- Models the unchecked `operator[]` (LazyVector.h:493-494): `m_data[idx]`.
A read outside the allocation is C++ undefined behavior; the model answers the
`Inhabited` default there. -/
def Vector.idx [Inhabited T] (v : Vector T) (i : Nat) : T :=
  v.data.getD i default

/-- The logical contents of a container: the first `m_size` slots of
`m_data`. -/
def Vector.toList (v : Vector T) : List T :=
  v.data.take v.size

/-- Well-formedness of the C++ object state: positive capacity, `m_size`
within capacity, and the allocation holding exactly `m_reservedSize` slots. -/
def Vector.wf (v : Vector T) : Prop :=
  0 < v.reservedSize ∧ v.size ≤ v.reservedSize ∧ v.data.length = v.reservedSize

/-- Models the bounds-checked `at(pos)` (LazyVector.h:497-504): returns
`m_data[pos]` when `pos < m_size`, otherwise throws `std::out_of_range`.  The
throw is modelled as `Except.error`; `at` reads but never writes the object, so
it is a pure function of the state. -/
def Vector.atPos [Inhabited T] (v : Vector T) (pos : Nat) : Except String T :=
  if pos < v.size then Except.ok (v.idx pos)
  else Except.error "accessed position is out of range."

/-- Models `push_back(const T&)` (LazyVector.h:542-549): when
`m_size == m_reservedSize`, first `m_reservedSize *= 2` and `reallocate()`;
then `m_data[m_size] = value; ++m_size;`. -/
def Vector.push_back (junk : T) (v : Vector T) (x : T) : Vector T :=
  if v.size = v.reservedSize then
    let v1 := Vector.reallocate junk { v with reservedSize := v.reservedSize * 2 }
    { v1 with data := v1.data.set v1.size x, size := v1.size + 1 }
  else
    { v with data := v.data.set v.size x, size := v.size + 1 }

/-- A sequence of `push_back` calls applied in order. -/
def pushAll (junk : T) (v : Vector T) (l : List T) : Vector T :=
  l.foldl (Vector.push_back junk) v

/-- Models `insert(const T* it, const T& value)` (LazyVector.h:582-595) at
position `pos = it - m_data`.  The source computes `iit = &m_data[pos]` before
the capacity check; when `m_size == m_reservedSize` it then doubles the
capacity and reallocates, which frees the buffer `iit` points into, so the
subsequent `memmove` and the write `*iit = value` land in freed memory and
never reach the live buffer — on the live object only `m_reservedSize` and
`m_size` change.  Without growth, `memmove` shifts the `m_size - pos` elements
at `[pos, m_size)` up one slot and `value` is written at `pos`. -/
def Vector.insertAt (junk : T) (v : Vector T) (pos : Nat) (x : T) : Vector T :=
  if v.size = v.reservedSize then
    let v1 := Vector.reallocate junk { v with reservedSize := v.reservedSize * 2 }
    { v1 with size := v1.size + 1 }
  else
    { v with
      size := v.size + 1,
      data := v.data.take pos ++ x :: ((v.data.drop pos).take (v.size - pos))
                ++ v.data.drop (v.size + 1) }

/-- Models `erase(const T* it)` (LazyVector.h:675-686) at `pos = it - m_data`:
(no destructor call for arithmetic `T`), `memmove` copies the
`m_size - pos - 1` elements above `pos` down one slot — slot `m_size - 1`
keeps its old value — then `--m_size;`. -/
def Vector.eraseAt (v : Vector T) (pos : Nat) : Vector T :=
  { v with
    size := v.size - 1,
    data := v.data.take pos ++ ((v.data.drop (pos + 1)).take (v.size - 1 - pos))
              ++ v.data.drop (v.size - 1) }

/-- Models the move constructor `Vector(Vector&&)` (LazyVector.h:263-276): the
new object copies `m_reservedSize` and `m_size`, allocates a fresh buffer of
`m_reservedSize` slots and moves the first `m_size` elements into it; the
source object is then left with `m_data = nullptr` (modelled `[]`) and
`m_size = 0` (its `m_reservedSize` is not cleared).  Returns
(new object, moved-from source). -/
def Vector.moveCtor (junk : T) (x : Vector T) : Vector T × Vector T :=
  ({ reservedSize := x.reservedSize, size := x.size,
     data := x.data.take x.size ++ List.replicate (x.reservedSize - x.size) junk },
   { x with size := 0, data := [] })

/-- Models `BinaryExpression<LeftExpr, BinaryOp, RightExpr>`
(LazyVector.h:31-104).  At composition time each operand (`LeftExpr` /
`RightExpr`) is either a `const Vector&` or another (moved-in, nested)
`BinaryExpression`, so the operand alternatives form an inductive tree; the
stateless operation tag contributes exactly its pure `apply : T → T → T`.
A node stores no computed values. -/
inductive Expr (T : Type) where
  | vec : Vector T → Expr T
  | node : Expr T → (T → T → T) → Expr T → Expr T

/-- Models `BinaryExpression::operator[]` (LazyVector.h:101-103):
`BinaryOp::apply(le()[index], re()[index])`, recursing through however many
nested nodes exist; a `Vector` leaf answers with its `operator[]`. -/
def Expr.idx [Inhabited T] : Expr T → Nat → T
  | .vec v, i => v.idx i
  | .node l op r, i => op (l.idx i) (r.idx i)

/-- The number of `apply` invocations one full evaluation of the tree performs
(one per interior node). -/
def Expr.applyNodes : Expr T → Nat
  | .vec _ => 0
  | .node l _ r => l.applyNodes + r.applyNodes + 1

/-- Instrumented `BinaryExpression::operator[]`: the same recursion as
`Expr.idx`, additionally counting every `BinaryOp::apply` invocation the read
performs. -/
def Expr.idxCounted [Inhabited T] : Expr T → Nat → T × Nat
  | .vec v, i => (v.idx i, 0)
  | .node l op r, i =>
      (op (l.idxCounted i).1 (r.idxCounted i).1,
       (l.idxCounted i).2 + (r.idxCounted i).2 + 1)

/-- Total number of `apply` invocations performed by `k` successive reads of
index `i` of the same node: the node holds no cache, so every read runs the
full recursion afresh. -/
def Expr.readCost [Inhabited T] (e : Expr T) (i : Nat) : Nat → Nat
  | 0 => 0
  | k + 1 => (e.idxCounted i).2 + e.readCost i k

/-- Models the element loop `for (i = 0; i < n; ++i) d[i] = e[i];` shared by
`operator=(RightExpr&&)` (LazyVector.h:325-327) and the expression constructor
(LazyVector.h:318-320), also counting how many elements of the right-hand
expression are evaluated. -/
def evalWrite [Inhabited T] (e : Expr T) : Nat → List T → List T × Nat
  | 0, d => (d, 0)
  | m + 1, d =>
      let p := evalWrite e m d
      (p.1.set m (e.idx m), p.2 + 1)

/-- Models `operator=(RightExpr&&)` (LazyVector.h:324-329): evaluate the
expression element-wise into the existing storage for `i < m_size`; neither
`m_size` nor `m_reservedSize` is touched. -/
def Vector.assignExpr [Inhabited T] (v : Vector T) (e : Expr T) : Vector T :=
  { v with data := (evalWrite e v.size v.data).1 }

/-- Models a compound-assignment operator loop such as `operator+=`
(LazyVector.h:734-739): `m_data[i] f= e[i]` for `i < m_size`, where `f` is the
element-level operation (`fun a b => a + b` for `+=`). -/
def opAssignWrite [Inhabited T] (f : T → T → T) (e : Expr T) : Nat → List T → List T
  | 0, d => d
  | m + 1, d =>
      let d1 := opAssignWrite f e m d
      d1.set m (f (d1.getD m default) (e.idx m))

/-- Models `operator+=(RightExpr&&)` (LazyVector.h:734-739). -/
def Vector.plusAssign [Inhabited T] [Add T] (v : Vector T) (e : Expr T) : Vector T :=
  { v with data := opAssignWrite (fun a b => a + b) e v.size v.data }

/-- Models `Vector(BinaryExpression<LE, Op, RE>&&)` (LazyVector.h:317-321):
the NSDMIs give `m_reservedSize = 4` and `m_size = 0`; the body never
allocates `m_data` (left dangling, modelled `[]`) and runs the assignment loop
for `i < m_size`, i.e. zero iterations.  Returns the constructed object paired
with the number of element evaluations performed on the expression. -/
def Vector.ofExpr [Inhabited T] (e : Expr T) : Vector T × Nat :=
  let v : Vector T := { reservedSize := 4, size := 0, data := [] }
  let p := evalWrite e v.size v.data
  ({ v with data := p.1 }, p.2)

/-- Tag `BinaryOperations::ADD` (LazyVector.h:120): every `apply` overload
computes `a + b` (the compound-assignment overloads reuse a temporary's
storage, which by the library's stated contract on `T` yields the same
value). -/
def BinaryOperations.ADD : Int → Int → Int := fun a b => a + b

/-- Tag `BinaryOperations::LAND` (LazyVector.h:125): bitwise `a & b`
(two's-complement bitwise and, `Int.land`). -/
def BinaryOperations.LAND : Int → Int → Int := fun a b => Int.land a b

/-- Tag `BinaryOperations::LOR` (LazyVector.h:124): bitwise `a | b`
(two's-complement bitwise or, `Int.lor`). -/
def BinaryOperations.LOR : Int → Int → Int := fun a b => Int.lor a b

/-- Models `operator+` on `Vector` (LazyVector.h:740-742): builds a
`BinaryExpression` composing `*this` (by reference) with the forwarded right
operand under tag `ADD`; no storage is touched. -/
def Vector.opAdd (v : Vector Int) (r : Expr Int) : Expr Int :=
  Expr.node (Expr.vec v) BinaryOperations.ADD r

/-- Models the first `operator&` overload (LazyVector.h:784-786, in the
section commented `'&'/'&=' overload`): composes with tag `LAND`. -/
def Vector.andOverload1 (v : Vector Int) (r : Expr Int) : Expr Int :=
  Expr.node (Expr.vec v) BinaryOperations.LAND r

/-- Models the second `operator&` overload (LazyVector.h:795-797, in the
section commented `'|'/'|=' overload`): the source spells the member
`operator&` again — with the same signature as the first overload — and binds
tag `LOR`; no binary `operator|` exists anywhere in the source. -/
def Vector.andOverload2 (v : Vector Int) (r : Expr Int) : Expr Int :=
  Expr.node (Expr.vec v) BinaryOperations.LOR r

/-- Concrete destination container for the C3 witness: capacity 4, length 2. -/
def cW : Vector Int := ⟨4, 2, [5, 5, 5, 5]⟩

/-- Concrete left operand for the C3 witness: length 3. -/
def aW : Vector Int := ⟨6, 3, [1, 2, 3, 0, 0, 0]⟩

/-- Concrete right operand for the C3 witness: length 3. -/
def bW : Vector Int := ⟨6, 3, [10, 20, 30, 0, 0, 0]⟩

/-- Concrete container of length 3 for the C4 witness. -/
def vC4 : Vector Int := ⟨6, 3, [1, 2, 3, 0, 0, 0]⟩

/-- Concrete one-element container holding 6, for the C2 evaluation. -/
def vBit6 : Vector Int := pushAll 0 (Vector.mkEmpty 0) [6]

/-- Concrete one-element container holding 3, for the C2 evaluation. -/
def vBit3 : Vector Int := pushAll 0 (Vector.mkEmpty 0) [3]

/-- Setting slot `i` and then taking `i + 1` slots yields the first `i` old
slots followed by the written value. -/
theorem take_succ_set : ∀ (l : List T) (i : Nat) (x : T), i < l.length →
    (l.set i x).take (i + 1) = l.take i ++ [x]
  | _ :: _, 0, _, _ => rfl
  | a :: l, i + 1, x, h =>
      congrArg (fun t => a :: t) (take_succ_set l i x (Nat.lt_of_succ_lt_succ h))

/-- The assignment loop does not change the allocation size. -/
theorem evalWrite_length [Inhabited T] (e : Expr T) (n : Nat) (d : List T) :
    (evalWrite e n d).1.length = d.length := by
  induction n with
  | zero => rfl
  | succ m ih => simp [evalWrite, ih]

/-- Slots at or above the loop bound are untouched by the assignment loop. -/
theorem evalWrite_get_ge [Inhabited T] (e : Expr T) (n : Nat) (d : List T)
    (i : Nat) (h : n ≤ i) : (evalWrite e n d).1[i]? = d[i]? := by
  induction n with
  | zero => rfl
  | succ m ih =>
    have hmi : m ≠ i := by omega
    simp only [evalWrite]
    rw [List.getElem?_set_ne hmi, ih (by omega)]

/-- Slots below the loop bound hold the evaluated expression afterwards. -/
theorem evalWrite_get_lt [Inhabited T] (e : Expr T) (n : Nat) (d : List T)
    (i : Nat) (hi : i < n) (hd : i < d.length) :
    (evalWrite e n d).1[i]? = some (e.idx i) := by
  induction n with
  | zero => omega
  | succ m ih =>
    simp only [evalWrite]
    by_cases hm : i = m
    · subst hm
      exact List.getElem?_set_eq_of_lt _ (by rw [evalWrite_length]; exact hd)
    · rw [List.getElem?_set_ne (by omega)]
      exact ih (by omega)

/-- One `push_back` appends the value to the logical contents and preserves
well-formedness (for a well-formed receiver, whose capacity is positive). -/
theorem push_back_spec (junk : T) (v : Vector T) (x : T) (hwf : v.wf) :
    (Vector.push_back junk v x).toList = v.toList ++ [x]
      ∧ (Vector.push_back junk v x).wf := by
  obtain ⟨hpos, hle, hlen⟩ := hwf
  by_cases h : v.size = v.reservedSize
  · have hpb : Vector.push_back junk v x
        = { reservedSize := v.reservedSize * 2,
            size := v.size + 1,
            data := (v.data.take v.size
              ++ List.replicate (v.reservedSize * 2 - v.size) junk).set v.size x } := by
      simp [Vector.push_back, Vector.reallocate, if_pos h]
    have hdl : (v.data.take v.size
        ++ List.replicate (v.reservedSize * 2 - v.size) junk).length
        = v.reservedSize * 2 := by
      simp only [List.length_append, List.length_take, List.length_replicate]
      omega
    have hsz : v.size < (v.data.take v.size
        ++ List.replicate (v.reservedSize * 2 - v.size) junk).length := by
      rw [hdl]; omega
    rw [hpb]
    constructor
    · show ((v.data.take v.size
          ++ List.replicate (v.reservedSize * 2 - v.size) junk).set v.size x).take
            (v.size + 1) = v.data.take v.size ++ [x]
      rw [take_succ_set _ _ _ hsz, List.take_append_of_le_length (by simp; omega),
        List.take_take, Nat.min_self]
    · simp only [Vector.wf, List.length_set, hdl, and_true]
      omega
  · have hpb : Vector.push_back junk v x
        = { v with data := v.data.set v.size x, size := v.size + 1 } := by
      simp [Vector.push_back, if_neg h]
    have hlt : v.size < v.reservedSize := by omega
    rw [hpb]
    constructor
    · show (v.data.set v.size x).take (v.size + 1) = v.data.take v.size ++ [x]
      exact take_succ_set _ _ _ (by omega)
    · simp only [Vector.wf, List.length_set, hlen, and_true]
      omega

/-- A sequence of `push_back` calls appends the pushed values in order and
preserves well-formedness. -/
theorem pushAll_spec (junk : T) (l : List T) (v : Vector T) (hwf : v.wf) :
    (pushAll junk v l).toList = v.toList ++ l ∧ (pushAll junk v l).wf := by
  induction l generalizing v with
  | nil => exact ⟨by simp [pushAll], hwf⟩
  | cons a l ih =>
    have h1 := push_back_spec junk v a hwf
    have h2 := ih (Vector.push_back junk v a) h1.2
    refine ⟨?_, h2.2⟩
    show (pushAll junk (Vector.push_back junk v a) l).toList = _
    rw [h2.1, h1.1, List.append_assoc]
    rfl

/-- The value component of the instrumented read agrees with `operator[]`. -/
theorem idxCounted_fst [Inhabited T] (e : Expr T) (i : Nat) :
    (e.idxCounted i).1 = e.idx i := by
  induction e with
  | vec v => rfl
  | node l op r ihl ihr => simp [Expr.idxCounted, Expr.idx, ihl, ihr]

/-- Every read applies every interior node's operation exactly once: the whole
subtree is re-evaluated, independently of any earlier reads. -/
theorem idxCounted_snd [Inhabited T] (e : Expr T) (i : Nat) :
    (e.idxCounted i).2 = e.applyNodes := by
  induction e with
  | vec v => rfl
  | node l op r ihl ihr => simp [Expr.idxCounted, Expr.applyNodes, ihl, ihr]

/-- `k` reads of the same index cost `k` full subtree evaluations. -/
theorem readCost_eq [Inhabited T] (e : Expr T) (i : Nat) :
    ∀ k, e.readCost i k = k * e.applyNodes
  | 0 => by simp [Expr.readCost]
  | k + 1 => by
      simp only [Expr.readCost, readCost_eq e i k, idxCounted_snd]
      ring

/-- Claim C1: with containers a holding {1,2,3} and b holding {10,20,30}
(filled through the initializer-list assignment operator, LazyVector.h:332)
and c constructed with size 3, assigning the expression a + b into c yields
c == {11,22,33}, and applying c += a afterwards yields c == {12,24,36};
this holds for every junk contents of the uninitialized allocation slots. -/
theorem claim_C1 (ja jb jc : Int) :
    ((Vector.mkSize jc 0 3).assignExpr
        (Vector.opAdd (Vector.assignList ja (Vector.mkEmpty ja) [1, 2, 3])
          (Expr.vec (Vector.assignList jb (Vector.mkEmpty jb) [10, 20, 30])))).toList
      = [11, 22, 33] ∧
    (((Vector.mkSize jc 0 3).assignExpr
        (Vector.opAdd (Vector.assignList ja (Vector.mkEmpty ja) [1, 2, 3])
          (Expr.vec (Vector.assignList jb (Vector.mkEmpty jb) [10, 20, 30])))).plusAssign
        (Expr.vec (Vector.assignList ja (Vector.mkEmpty ja) [1, 2, 3]))).toList
      = [12, 24, 36] :=
  ⟨rfl, rfl⟩

/-- Claim C2, evidence against: the source declares two `operator&` member
overloads with identical signatures — LazyVector.h:784 composing tag `LAND`
and LazyVector.h:795 (in the section commented as the `'|'`/`'|='` overload)
composing tag `LOR` — and declares no binary `operator|` at all.  On
one-element containers holding 6 and 3, the overload written in the `'|'`
section (still spelled `&`) evaluates to 6 | 3 = 7 while the matching
bitwise-and tag gives 6 & 3 = 2, so the `&`/`|` binary forms do not each
compose their matching operation tag. -/
theorem claim_C2 :
    (Vector.andOverload2 vBit6 (Expr.vec vBit3)).idx 0 = 7 ∧
    (Vector.andOverload1 vBit6 (Expr.vec vBit3)).idx 0 = 2 ∧
    BinaryOperations.LAND (vBit6.idx 0) (vBit3.idx 0) = 2 := by
  decide

/-- Claim C3: assigning an expression built from containers a and b (with a
longer than c) into c writes exactly the slots below c's current length with
the expression's elements, leaves c's length, capacity and allocation size
unchanged, leaves every slot from index c.length upward unchanged, and is a
no-op when c's length is 0. -/
theorem claim_C3 (a b c : Vector Int) (op : Int → Int → Int)
    (hlen : c.size < a.size) (hwfc : c.size ≤ c.data.length) :
    (c.assignExpr (Expr.node (Expr.vec a) op (Expr.vec b))).size = c.size ∧
    (c.assignExpr (Expr.node (Expr.vec a) op (Expr.vec b))).reservedSize = c.reservedSize ∧
    (c.assignExpr (Expr.node (Expr.vec a) op (Expr.vec b))).data.length = c.data.length ∧
    (∀ i, i < c.size → (c.assignExpr (Expr.node (Expr.vec a) op (Expr.vec b))).data[i]?
        = some (op (a.idx i) (b.idx i))) ∧
    (∀ i, c.size ≤ i → (c.assignExpr (Expr.node (Expr.vec a) op (Expr.vec b))).data[i]?
        = c.data[i]?) ∧
    (c.size = 0 → c.assignExpr (Expr.node (Expr.vec a) op (Expr.vec b)) = c) := by
  refine ⟨rfl, rfl, evalWrite_length _ _ _, ?_, ?_, ?_⟩
  · intro i hi
    exact evalWrite_get_lt _ _ _ _ hi (by omega)
  · intro i hi
    exact evalWrite_get_ge _ _ _ _ hi
  · intro h0
    obtain ⟨r, s, d⟩ := c
    change s = 0 at h0
    subst h0
    rfl

/-- Witness for C3 at concrete containers: destination of length 2 and
capacity 4, operands of length 3; both hypotheses are discharged by
computation. -/
theorem claim_C3_witness :
    (cW.assignExpr (Expr.node (Expr.vec aW) BinaryOperations.ADD (Expr.vec bW))).size = 2 ∧
    (cW.assignExpr (Expr.node (Expr.vec aW) BinaryOperations.ADD (Expr.vec bW))).data[0]?
      = some (BinaryOperations.ADD (aW.idx 0) (bW.idx 0)) := by
  refine ⟨(claim_C3 aW bW cW BinaryOperations.ADD (by decide) (by decide)).1, ?_⟩
  exact (claim_C3 aW bW cW BinaryOperations.ADD (by decide) (by decide)).2.2.2.1 0 (by decide)

/-- Claim C4: the checked access fails with an out-of-range error exactly when
the index reaches the length, and otherwise returns the element at that index
(`at` is modelled as a pure function of the state: it never modifies the
container). -/
theorem claim_C4 (v : Vector Int) (pos : Nat) :
    ((v.atPos pos).isOk = true ↔ pos < v.size) ∧
    (pos < v.size → v.atPos pos = Except.ok (v.idx pos)) := by
  constructor
  · unfold Vector.atPos
    by_cases h : pos < v.size
    · simp [h, Except.isOk, Except.toBool]
    · simp [h, Except.isOk, Except.toBool]
  · intro h
    simp [Vector.atPos, h]

/-- Witness for C4: on a container of length 3, at(2) succeeds with the third
element, 3, and at(5) fails. -/
theorem claim_C4_witness :
    vC4.atPos 2 = Except.ok 3 ∧ (vC4.atPos 5).isOk = false := by
  constructor
  · exact (claim_C4 vC4 2).2 (by decide)
  · by_contra hne
    have ht : (vC4.atPos 5).isOk = true := by
      cases hok : (vC4.atPos 5).isOk
      · exact absurd hok hne
      · rfl
    exact absurd ((claim_C4 vC4 5).1.mp ht) (by decide)

/-- Claim C5: after any sequence of N push_back calls with values
v0..v(N-1) on a default-constructed container, the length is N and slot i
holds v_i for every i < N; for every junk contents of fresh allocations. -/
theorem claim_C5 (junk : Int) (l : List Int) :
    (pushAll junk (Vector.mkEmpty junk) l).size = l.length ∧
    ∀ i, i < l.length → (pushAll junk (Vector.mkEmpty junk) l).data[i]? = l[i]? := by
  have hwf : (Vector.mkEmpty junk).wf := by
    unfold Vector.wf Vector.mkEmpty
    simp
  have h := pushAll_spec junk l (Vector.mkEmpty junk) hwf
  have htl : (pushAll junk (Vector.mkEmpty junk) l).toList = l := by
    rw [h.1]
    rfl
  obtain ⟨hpos, hle, hlenr⟩ := h.2
  have hmin : (pushAll junk (Vector.mkEmpty junk) l).toList.length
      = (pushAll junk (Vector.mkEmpty junk) l).size := by
    simp only [Vector.toList, List.length_take]
    omega
  have hsize : (pushAll junk (Vector.mkEmpty junk) l).size = l.length := by
    rw [← hmin, htl]
  refine ⟨hsize, ?_⟩
  intro i hi
  have hti : (pushAll junk (Vector.mkEmpty junk) l).toList[i]? = l[i]? := by
    rw [htl]
  simp only [Vector.toList] at hti
  rw [List.getElem?_take_of_lt (by omega)] at hti
  exact hti

/-- Witness for C5: five pushes; the length is 5 and slot 2 holds the third
pushed value, 30. -/
theorem claim_C5_witness :
    (pushAll (0 : Int) (Vector.mkEmpty 0) [10, 20, 30, 40, 50]).size = 5 ∧
    (pushAll (0 : Int) (Vector.mkEmpty 0) [10, 20, 30, 40, 50]).data[2]? = some 30 := by
  constructor
  · exact (claim_C5 0 [10, 20, 30, 40, 50]).1
  · exact (claim_C5 0 [10, 20, 30, 40, 50]).2 2 (by decide)

/-- Claim C6, evidence against: a container constructed with size 0 has
capacity 0; `push_back` then doubles the zero capacity to zero and appends
anyway, ending with length 1 and capacity 0, so `capacity >= length` does not
hold on every state reachable by public operations; for every junk value. -/
theorem claim_C6 (j : Int) :
    (Vector.push_back j (Vector.mkSize j 0 0) 1).size = 1 ∧
    (Vector.push_back j (Vector.mkSize j 0 0) 1).reservedSize = 0 :=
  ⟨rfl, rfl⟩

/-- Claim C7, evidence against: on a full container [1,2,3,4]
(length = capacity = 4), inserting 9 at position 0 triggers growth; the
source's `insert` computes its destination pointer before reallocating, so
the shift and the write land in the freed buffer and the live contents stay
[1,2,3,4] with the length bumped to 5 (slot 4 junk); erasing position 0 then
yields [2,3,4,junk], which differs from the original [1,2,3,4] at index 0 for
every junk value, so the insert-then-erase round trip does not restore the
original sequence when the insertion grows capacity. -/
theorem claim_C7 (j : Int) :
    ((Vector.insertAt j (pushAll j (Vector.mkEmpty j) [1, 2, 3, 4]) 0 9).eraseAt 0).toList
      = [2, 3, 4, j] ∧
    (pushAll j (Vector.mkEmpty j) [1, 2, 3, 4]).toList = [1, 2, 3, 4] :=
  ⟨rfl, rfl⟩

/-- Claim C8, evidence against: the initializer-list constructor
(LazyVector.h:237-247) initializes `m_size` to the list length and then runs
the fill loop `m_data[m_size++] = item`, so `Vector x{1,2,3}` ends with size 6
and the items in slots 3..5 (slots 0..2 uninitialized); move-constructing y
from x therefore gives y.size() = 6, not 3, with y[0..2] the junk slots — only
the moved-from x being left empty holds. -/
theorem claim_C8 (j : Int) :
    (Vector.moveCtor j (Vector.ofInitList j [1, 2, 3])).1.size = 6 ∧
    (Vector.moveCtor j (Vector.ofInitList j [1, 2, 3])).1.toList = [j, j, j, 1, 2, 3] ∧
    (Vector.moveCtor j (Vector.ofInitList j [1, 2, 3])).2.size = 0 :=
  ⟨rfl, rfl, rfl⟩

/-- Claim C9: reading element i of a binary expression node returns the
operation tag applied to the operands' elements at i, recursing through
nested sub-expressions; the instrumented read performs exactly one `apply`
per interior node of the whole subtree on every read (no result is cached),
k reads of the same index cost k full subtree re-evaluations, and the value is
the pure function `Expr.idx` of the current operand contents. -/
theorem claim_C9 (l r : Expr Int) (op : Int → Int → Int) (e : Expr Int) (i k : Nat) :
    (Expr.node l op r).idx i = op (l.idx i) (r.idx i) ∧
    (e.idxCounted i).1 = e.idx i ∧
    (e.idxCounted i).2 = e.applyNodes ∧
    e.readCost i k = k * e.applyNodes :=
  ⟨rfl, idxCounted_fst e i, idxCounted_snd e i, readCost_eq e i k⟩

/-- Claim C10: constructing a container directly from a binary expression
always yields a container of length 0 and performs zero element evaluations
of the expression, whatever the lengths of its operands: the constructor keeps
the default-initialized `m_size = 0` and its evaluation loop runs zero
times. -/
theorem claim_C10 (e : Expr Int) :
    (Vector.ofExpr e).1.size = 0 ∧ (Vector.ofExpr e).2 = 0 :=
  ⟨rfl, rfl⟩

end Lazy
